import Mathlib

/-! Verification development for the hOCR → PDF exporter
(src/qt/src/hocr/HOCRPdfExporter.cc of gImageReader).

The C++ source is shallowly embedded below:
- `QRect` models Qt's integer rectangle (note Qt's convention
  `right = x + w - 1`, `bottom = y + h - 1`).
- `HOCRItem` models the read-only hOCR item tree consumed by the exporter.
- `PDFSettings` models the export settings value object.
- `printChildren` models `HOCRPdfExporter::printChildren`, with the painter
  abstracted to a trace of interface calls (`PDFCall`) plus a painter model
  supplying the two metric queries (`getAverageCharWidth`, `getTextWidth`)
  as pure functions of the current font size.
- `applyPoDoFo` models the coordinate transformation performed by
  `PoDoFoPDFPainter::drawText` / `drawImage` / `setFontSize`.
- `exportPages` / `runExport` model the per-page loop of
  `HOCRPdfExporter::run` (lines 364-411), with source-image resolution and
  container finalization abstracted as boolean oracles.
- `bytesPerLine` / `packBuffer` model the Zip row packing of
  `PoDoFoPDFPainter::drawImage` (lines 141-150).
- `podofoDrawImageSamples` / `previewDrawImageSamples` model the sample
  buffers the two backends hand to their image encoders (lines 127-174 and
  68-77), with color conversion abstracted as a parameter.

C++ `double` values are modelled as rationals (ℚ); C++ `int` as ℤ.  The
assignment `x += painter.getTextWidth(...)` into the `int` cursor truncates
toward zero, modelled by `truncQ`.
-/

structure QRect where
  x : Int
  y : Int
  w : Int
  h : Int
deriving DecidableEq

def QRect.left (r : QRect) : Int := r.x

def QRect.top (r : QRect) : Int := r.y

def QRect.right (r : QRect) : Int := r.x + r.w - 1

def QRect.bottom (r : QRect) : Int := r.y + r.h - 1

inductive HOCRItem : Type where
  | mk (itemClass : String) (bbox : QRect) (enabled : Bool) (baseLine : Int)
       (text : String) (fontSize : ℚ) (children : List HOCRItem)

def HOCRItem.itemClass : HOCRItem → String
  | .mk c _ _ _ _ _ _ => c

def HOCRItem.bbox : HOCRItem → QRect
  | .mk _ b _ _ _ _ _ => b

def HOCRItem.enabled : HOCRItem → Bool
  | .mk _ _ e _ _ _ _ => e

def HOCRItem.baseLine : HOCRItem → Int
  | .mk _ _ _ bl _ _ _ => bl

def HOCRItem.text : HOCRItem → String
  | .mk _ _ _ _ t _ _ => t

def HOCRItem.fontSize : HOCRItem → ℚ
  | .mk _ _ _ _ _ f _ => f

def HOCRItem.children : HOCRItem → List HOCRItem
  | .mk _ _ _ _ _ _ cs => cs

inductive Compression : Type where
  | zip
  | fax4
  | jpeg
deriving DecidableEq

inductive ColorFormat : Type where
  | rgb888
  | gray8
  | mono
deriving DecidableEq

structure PDFSettings where
  colorFormat : ColorFormat
  compression : Compression
  compressionQuality : Int
  useDetectedFontSizes : Bool
  uniformizeLineSpacing : Bool
  preserveSpaceWidth : Int
  overlay : Bool
  detectedFontScaling : ℚ

/-- A call issued by the layout engine against the `PDFPainter` interface. -/
inductive PDFCall : Type where
  | setFontSize (size : ℚ)
  | drawText (x y : ℚ) (text : String)
  | drawImage (bbox : QRect)
deriving DecidableEq

/-- The two metric queries of the painter interface, as pure functions of the
current font size (first argument). -/
structure PainterModel where
  avgCharWidth : ℚ → ℚ
  textWidth : ℚ → String → ℚ

/-- C++ conversion from `double` to `int`: truncation toward zero. -/
def truncQ (q : ℚ) : Int := if 0 ≤ q then ⌊q⌋ else ⌈q⌉

/-- Mutable locals of the word loop in the uniform-line-spacing branch of
`printChildren` (lines 426-445): the `int x` cursor, `int prevWordRight`,
and the painter's current font size. -/
structure WordCursor where
  x : Int
  prevWordRight : Int
  fontSize : ℚ
deriving DecidableEq

/-- One iteration of the word loop of the uniform-line-spacing branch
(lines 429-445): a disabled word is skipped by `continue`; otherwise the
detected font size is optionally applied, the horizontal gap heuristic
decides whether the cursor snaps to the word's bounding-box left edge,
`prevWordRight` becomes the word's right edge, the word is drawn at the
cursor, and the cursor advances by the width of the text plus a space. -/
def uniformWordStep (pm : PainterModel) (s : PDFSettings) (yb : ℚ)
    (wordItem : HOCRItem) (c : WordCursor) : WordCursor × List PDFCall :=
  if wordItem.enabled = false then (c, []) else
  let wordRect := wordItem.bbox
  let fs1 : ℚ := if s.useDetectedFontSizes then wordItem.fontSize * s.detectedFontScaling
                 else c.fontSize
  let fontCalls : List PDFCall :=
    if s.useDetectedFontSizes then [PDFCall.setFontSize (wordItem.fontSize * s.detectedFontScaling)]
    else []
  let x1 : Int :=
    if ((wordRect.x - c.prevWordRight : Int) : ℚ) > (s.preserveSpaceWidth : ℚ) * pm.avgCharWidth fs1
    then wordRect.x else c.x
  let x2 : Int := truncQ ((x1 : ℚ) + pm.textWidth fs1 (wordItem.text ++ " "))
  (⟨x2, wordRect.right, fs1⟩, fontCalls ++ [PDFCall.drawText (x1 : ℚ) yb wordItem.text])

/-- The word loop (lines 428-445) over a line's children. -/
def uniformWordLoop (pm : PainterModel) (s : PDFSettings) (yb : ℚ) :
    List HOCRItem → WordCursor → WordCursor × List PDFCall
  | [], c => (c, [])
  | w :: ws, c =>
    let r1 := uniformWordStep pm s yb w c
    let r2 := uniformWordLoop pm s yb ws r1.1
    (r2.1, r1.2 ++ r2.2)

/-- The line loop of the uniform-line-spacing branch (lines 424-446).  For
each line the cursor restarts at the paragraph's left edge; the baseline is
the first child line's (passed in once); `y` advances by `yInc` per line.
Returns the final font size and the per-line call segments. -/
def uniformLineLoop (pm : PainterModel) (s : PDFSettings) (parLeft : Int)
    (baseline : Int) (yInc : ℚ) :
    List HOCRItem → ℚ → ℚ → ℚ × List (List PDFCall)
  | [], _y, fs => (fs, [])
  | lineItem :: rest, y, fs =>
    let r1 := uniformWordLoop pm s (y + (baseline : ℚ)) lineItem.children ⟨parLeft, parLeft, fs⟩
    let r2 := uniformLineLoop pm s parLeft baseline yInc rest (y + yInc) r1.1.fontSize
    (r2.1, r1.2 :: r2.2)

/-- The word loop of the `ocr_line` branch (uniform spacing disabled,
lines 450-457): every word (with no enabled check in the source) is drawn
at its literal bounding-box left edge at the given `y`. -/
def lineWordLoop (pm : PainterModel) (s : PDFSettings) (y : ℚ) :
    List HOCRItem → ℚ → ℚ × List PDFCall
  | [], fs => (fs, [])
  | w :: ws, fs =>
    let fs1 : ℚ := if s.useDetectedFontSizes then w.fontSize * s.detectedFontScaling else fs
    let head : List PDFCall :=
      (if s.useDetectedFontSizes then [PDFCall.setFontSize (w.fontSize * s.detectedFontScaling)]
       else []) ++ [PDFCall.drawText (w.bbox.x : ℚ) y w.text]
    let r := lineWordLoop pm s y ws fs1
    (r.1, head ++ r.2)

/-- The guarded first-child baseline lookup of line 423:
`childCount > 0 ? item->children()[0]->baseLine() : 0`. -/
def firstChildBaseline (children : List HOCRItem) : Int :=
  match children with
  | [] => 0
  | c :: _ => c.baseLine

mutual

/-- Embedding of `HOCRPdfExporter::printChildren` (lines 413-466), as a function from the
item and the painter's current font size to the new font size and the trace
of painter calls.  Branch structure follows the source: disabled guard,
uniform-spacing paragraph, non-uniform line, non-overlay graphic, generic
recursion. -/
def printChildren (pm : PainterModel) (s : PDFSettings) (imgScale : ℚ)
    (item : HOCRItem) (fs : ℚ) : ℚ × List PDFCall :=
  match item with
  | .mk itemClass itemRect enabled bl _txt _fsz children =>
    if enabled = false then (fs, []) else
    if itemClass = "ocr_par" ∧ s.uniformizeLineSpacing = true then
      let yInc : ℚ := (itemRect.h : ℚ) / (children.length : ℚ)
      let r := uniformLineLoop pm s itemRect.x (firstChildBaseline children) yInc
        children ((itemRect.top : ℚ) + yInc) fs
      (r.1, r.2.flatten)
    else if itemClass = "ocr_line" ∧ s.uniformizeLineSpacing = false then
      let y : ℚ := (itemRect.bottom : ℚ) + (bl : ℚ)
      lineWordLoop pm s y children fs
    else if itemClass = "ocr_graphic" ∧ s.overlay = false then
      (fs, [PDFCall.drawImage itemRect])
    else
      printChildrenList pm s imgScale children fs

/-- The recursion of the fall-through branch of `printChildren`
(lines 462-464), threading the painter font size left to right. -/
def printChildrenList (pm : PainterModel) (s : PDFSettings) (imgScale : ℚ) :
    List HOCRItem → ℚ → ℚ × List PDFCall
  | [], fs => (fs, [])
  | i :: is, fs =>
    let r1 := printChildren pm s imgScale i fs
    let r2 := printChildrenList pm s imgScale is r1.1
    (r2.1, r1.2 ++ r2.2)

end

/-- State of `PoDoFoPDFPainter`: the scale factor passed at construction and
the page height read from the current page (`m_pageHeight`). -/
structure PoDoFoState where
  scaleFactor : ℚ
  pageHeight : ℚ

/-- A drawing operator as emitted into the PDF content stream by the file
backend, in container coordinates (origin at the page's bottom-left). -/
inductive PdfOp : Type where
  | opSetFontSize (size : ℚ)
  | opText (x y : ℚ) (text : String)
  | opImage (x y : ℚ)
deriving DecidableEq

/-- The coordinate conversion performed by `PoDoFoPDFPainter` for each
interface call: `drawText(x, y, t)` emits the text operator at
`(x * scaleFactor, pageHeight - y * scaleFactor)` (line 125); `drawImage`
places the image at `(bbox.x * scaleFactor,
pageHeight - (bbox.y + bbox.height) * scaleFactor)` (line 173);
`setFontSize` sets the font size unscaled (line 121). -/
def applyPoDoFo (st : PoDoFoState) : PDFCall → PdfOp
  | .setFontSize p => .opSetFontSize p
  | .drawText x y t => .opText (x * st.scaleFactor) (st.pageHeight - y * st.scaleFactor) t
  | .drawImage bbox =>
    .opImage ((bbox.x : ℚ) * st.scaleFactor)
      (st.pageHeight - ((bbox.y + bbox.h : Int) : ℚ) * st.scaleFactor)

/-- One hOCR page as seen by the per-page loop of `HOCRPdfExporter::run`:
its title, enabled flag, source resolution, whether the source image can be
resolved (`addSource` succeeding, abstracted as an oracle), and the page
item tree. -/
structure PageInput where
  title : String
  enabled : Bool
  resolution : Int
  sourceOk : Bool
  item : HOCRItem

/-- The document scale factor `docScale = 72 / sourceDpi` of line 375. -/
def pageDocScale (p : PageInput) : ℚ := 72 / (p.resolution : ℚ)

/-- All painter-interface calls made while rendering one page (lines
381-387): the initial `setFontSize`, the `printChildren` walk, and the
overlay image when overlay mode is on. -/
def pageCalls (pm : PainterModel) (s : PDFSettings) (outputDpi : Int)
    (fontSize0 : ℚ) (p : PageInput) : List PDFCall :=
  PDFCall.setFontSize fontSize0 ::
    (printChildren pm s ((outputDpi : ℚ) / (p.resolution : ℚ)) p.item fontSize0).2 ++
    (if s.overlay = true then [PDFCall.drawImage p.item.bbox] else [])

/-- One finalized output page: its size in points and the emitted operators. -/
structure RenderedPage where
  width : ℚ
  height : ℚ
  ops : List PdfOp
deriving DecidableEq

/-- Rendering of one page (lines 375-389): the output page is created with
size `bbox × docScale`; the file backend is constructed with `docScale` and
reads the page height back from the created page. -/
def renderPage (pm : PainterModel) (s : PDFSettings) (outputDpi : Int)
    (fontSize0 : ℚ) (p : PageInput) : RenderedPage :=
  ⟨(p.item.bbox.w : ℚ) * pageDocScale p,
   (p.item.bbox.h : ℚ) * pageDocScale p,
   (pageCalls pm s outputDpi fontSize0 p).map
     (applyPoDoFo ⟨pageDocScale p, (p.item.bbox.h : ℚ) * pageDocScale p⟩)⟩

/-- The per-page loop of `HOCRPdfExporter::run` (lines 364-393): disabled
pages are skipped; a page whose source resolves is rendered; a page whose
source cannot be resolved contributes its title to the failure list and the
loop continues.  Returns the rendered pages and the failed titles, in page
order. -/
def exportPages (pm : PainterModel) (s : PDFSettings) (outputDpi : Int)
    (fontSize0 : ℚ) : List PageInput → List RenderedPage × List String
  | [] => ([], [])
  | p :: ps =>
    let rest := exportPages pm s outputDpi fontSize0 ps
    if p.enabled = false then rest
    else if p.sourceOk = true then
      (renderPage pm s outputDpi fontSize0 p :: rest.1, rest.2)
    else (rest.1, p.title :: rest.2)

/-- Outcome of a whole export run (lines 364-411): the finalized pages, the
accumulated failure list, the single batch warning shown when the list is
non-empty (lines 394-396), whether a close-failure warning was shown, and
the returned `pdfCanBeOpened` flag (lines 398-404, 410). -/
structure ExportResult where
  pages : List RenderedPage
  failedTitles : List String
  batchReport : Option (List String)
  closeReport : Bool
  canBeOpened : Bool
deriving DecidableEq

/-- Embedding of `HOCRPdfExporter::run` after settings collection, with container
finalization success abstracted as the oracle `closeOk`. -/
def runExport (pm : PainterModel) (s : PDFSettings) (outputDpi : Int)
    (fontSize0 : ℚ) (inputs : List PageInput) (closeOk : Bool) : ExportResult :=
  let r := exportPages pm s outputDpi fontSize0 inputs
  ⟨r.1, r.2, if r.2.isEmpty then none else some r.2, !closeOk, closeOk⟩

/-- Embedding of `settings.colorFormat == QImage::Format_Mono ? 1 : 8` (line 140). -/
def sampleSizeOf (fmt : ColorFormat) : ℕ :=
  if fmt = ColorFormat.mono then 1 else 8

/-- Embedding of `settings.colorFormat == QImage::Format_RGB888 ? 3 : 1` (line 143). -/
def numComponentsOf (fmt : ColorFormat) : ℕ :=
  if fmt = ColorFormat.rgb888 then 3 else 1

/-- The per-row byte count of the Zip packing (line 144):
`numComponents * ((width * sampleSize) / 8 + ((width * sampleSize) % 8 != 0))`. -/
def bytesPerLine (fmt : ColorFormat) (width : ℕ) : ℕ :=
  numComponentsOf fmt *
    ((width * sampleSizeOf fmt) / 8 +
      (if (width * sampleSizeOf fmt) % 8 ≠ 0 then 1 else 0))

/-- The packing loop of lines 145-148: for each row `y` the first
`bpl` bytes of the image's (32-bit aligned, hence at least `bpl` bytes long)
scanline are appended to the continuous buffer. -/
def packBuffer (bpl : ℕ) (scanLine : ℕ → List ℕ) : ℕ → List ℕ
  | 0 => []
  | n + 1 => packBuffer bpl scanLine n ++ (scanLine n).take bpl

/-- Effect of `QImage::invertPixels` on one byte of sample data: bitwise complement. -/
def invByte (b : ℕ) : ℕ := 255 - b

/-- The encoded-image object produced by `PoDoFoPDFPainter::drawImage`:
which filter was selected and the sample buffer handed to that encoder. -/
inductive EncodedImage : Type where
  | zip (samples : List ℕ)
  | fax4 (samples : List ℕ)
  | jpeg (samples : List ℕ) (quality : Int)
deriving DecidableEq

def encSamples : EncodedImage → List ℕ
  | .zip s => s
  | .fax4 s => s
  | .jpeg s _ => s

/-- Embedding of `PoDoFoPDFPainter::drawImage` (lines 127-172) at the level of sample
buffers: the image is converted (`convertedImage`, abstracted as the
parameter `convert`), then — when the color format is Mono — bit-inverted
(lines 129-131) before the compression branch, so all three encoders
receive the inverted samples. -/
def podofoDrawImageSamples (s : PDFSettings) (convert : ColorFormat → List ℕ → List ℕ)
    (img : List ℕ) : EncodedImage :=
  let cimg := convert s.colorFormat img
  let cimg := if s.colorFormat = ColorFormat.mono then cimg.map invByte else cimg
  match s.compression with
  | Compression.zip => .zip cimg
  | Compression.fax4 => .fax4 cimg
  | Compression.jpeg => .jpeg cimg s.compressionQuality

/-- Embedding of `QPainterPDFPainter::drawImage` (lines 68-77) at the level of sample
buffers: the image is converted and (for the Jpeg setting, before a lossy
round trip) drawn as is — no inversion ever happens. -/
def previewDrawImageSamples (s : PDFSettings) (convert : ColorFormat → List ℕ → List ℕ)
    (img : List ℕ) : List ℕ :=
  convert s.colorFormat img

/-- The y coordinate of a `drawText` interface call, if the call is one. -/
def drawTextY : PDFCall → Option ℚ
  | .drawText _ y _ => some y
  | _ => none

/-- The x coordinate of a `drawText` interface call, if the call is one. -/
def drawTextX : PDFCall → Option ℚ
  | .drawText x _ _ => some x
  | _ => none

/-- C3: in the uniform-line-spacing word loop, a drawn word's x coordinate
snaps to the word's literal bounding-box left edge exactly when the gap
between the previous reference right edge and the word's left edge is
strictly greater than `preserveSpaceWidth * averageCharWidth`; otherwise —
in particular when the gap equals the threshold — the word is drawn at the
running cursor position. -/
theorem c3_gap_heuristic_strict (pm : PainterModel) (s : PDFSettings) (yb : ℚ)
    (w : HOCRItem) (c : WordCursor) (hw : w.enabled = true) :
    ((uniformWordStep pm s yb w c).2.filterMap drawTextX =
      [if ((w.bbox.x - c.prevWordRight : Int) : ℚ) >
          (s.preserveSpaceWidth : ℚ) * pm.avgCharWidth
            (if s.useDetectedFontSizes then w.fontSize * s.detectedFontScaling else c.fontSize)
        then (w.bbox.x : ℚ) else (c.x : ℚ)]) ∧
    (((w.bbox.x - c.prevWordRight : Int) : ℚ) =
        (s.preserveSpaceWidth : ℚ) * pm.avgCharWidth
          (if s.useDetectedFontSizes then w.fontSize * s.detectedFontScaling else c.fontSize) →
      (uniformWordStep pm s yb w c).2.filterMap drawTextX = [(c.x : ℚ)]) := by
  constructor
  · simp only [uniformWordStep, hw]
    split_ifs with h1 h2 h2 <;> simp_all [drawTextX]
  · intro hG
    simp only [uniformWordStep, hw]
    split_ifs with h1 h2 h2 <;> simp_all [drawTextX]

/-- C4: in the uniform-line-spacing word loop, a disabled word is a complete
no-op: the cursor state (x, prevWordRight, font size) is returned unchanged,
no painter call is issued, and the loop continues as if the word were
absent; the `prevWordRight` reference updates (to the word's right edge)
only for enabled, hence drawn, words. -/
theorem c4_disabled_word_frame (pm : PainterModel) (s : PDFSettings) (yb : ℚ)
    (w : HOCRItem) (c : WordCursor) (ws : List HOCRItem) :
    (w.enabled = false →
      uniformWordStep pm s yb w c = (c, []) ∧
      uniformWordLoop pm s yb (w :: ws) c = uniformWordLoop pm s yb ws c) ∧
    (w.enabled = true →
      (uniformWordStep pm s yb w c).1.prevWordRight = w.bbox.right) := by
  constructor
  · intro h
    constructor
    · simp [uniformWordStep, h]
    · simp [uniformWordLoop, uniformWordStep, h]
  · intro h
    simp only [uniformWordStep, h]
    split_ifs <;> simp_all

/-- C8: a paragraph with zero children processed with uniform line spacing
enabled is a no-op: the line loop runs zero times, the first-line baseline
lookup is guarded by the child count, no painter call is issued, and the
computation is total (the divisor-zero `height / childCount`, an IEEE
floating division in the source yielding an unused infinity, never reaches
an integer division by zero). -/
theorem c8_empty_paragraph_noop (pm : PainterModel) (s : PDFSettings)
    (imgScale fs : ℚ) (item : HOCRItem)
    (hc : item.itemClass = "ocr_par") (he : item.enabled = true)
    (hu : s.uniformizeLineSpacing = true) (hch : item.children = []) :
    printChildren pm s imgScale item fs = (fs, []) := by
  cases item with
  | mk cls rect en bl txt fsz cs =>
    simp only [HOCRItem.itemClass] at hc
    simp only [HOCRItem.enabled] at he
    simp only [HOCRItem.children] at hch
    subst hc he hch
    simp [printChildren, uniformLineLoop, firstChildBaseline, hu]

theorem packBuffer_length (bpl : ℕ) (scanLine : ℕ → List ℕ)
    (hs : ∀ y, bpl ≤ (scanLine y).length) :
    ∀ h, (packBuffer bpl scanLine h).length = bpl * h := by
  intro h
  induction h with
  | zero => simp [packBuffer]
  | succ n ih =>
    simp only [packBuffer, List.length_append, ih, List.length_take,
      Nat.min_eq_left (hs n)]
    ring

theorem packBuffer_row (bpl : ℕ) (scanLine : ℕ → List ℕ)
    (hs : ∀ y, bpl ≤ (scanLine y).length) :
    ∀ h r, r < h →
      ((packBuffer bpl scanLine h).drop (r * bpl)).take bpl =
        (scanLine r).take bpl := by
  intro h
  induction h with
  | zero => exact fun r hr => absurd hr (Nat.not_lt_zero r)
  | succ n ih =>
    intro r hr
    have hlen : (packBuffer bpl scanLine n).length = bpl * n :=
      packBuffer_length bpl scanLine hs n
    by_cases hrn : r < n
    · have hmul : r * bpl + bpl ≤ n * bpl := by
        have h1 : (r + 1) * bpl ≤ n * bpl :=
          Nat.mul_le_mul_right bpl (Nat.succ_le_of_lt hrn)
        rwa [Nat.succ_mul] at h1
      rw [packBuffer,
        List.drop_append_of_le_length (by rw [hlen, Nat.mul_comm bpl n]; omega),
        List.take_append_of_le_length
          (by simp only [List.length_drop, hlen, Nat.mul_comm bpl n]; omega)]
      exact ih r hrn
    · have hr2 : r = n := by omega
      subst hr2
      rw [packBuffer, show r * bpl = (packBuffer bpl scanLine r).length by rw [hlen]; ring,
        List.drop_left, List.take_take]
      simp

/-- C9: for each of the three color formats, the Zip path's per-row byte
count equals `ceil(width * bitsPerSample * channels / 8)`, and the packed
buffer holds exactly that many bytes per row for all rows, contiguously
(row `r` occupies bytes `[r*bpl, (r+1)*bpl)` of the buffer). -/
theorem c9_zip_row_packing (fmt : ColorFormat) (w h : ℕ) (scanLine : ℕ → List ℕ)
    (hs : ∀ y, bytesPerLine fmt w ≤ (scanLine y).length) :
    bytesPerLine fmt w = (w * sampleSizeOf fmt * numComponentsOf fmt + 7) / 8 ∧
    (packBuffer (bytesPerLine fmt w) scanLine h).length = bytesPerLine fmt w * h ∧
    ∀ r < h,
      ((packBuffer (bytesPerLine fmt w) scanLine h).drop (r * bytesPerLine fmt w)).take
          (bytesPerLine fmt w) =
        (scanLine r).take (bytesPerLine fmt w) := by
  refine ⟨?_, packBuffer_length _ _ hs h, fun r hr => packBuffer_row _ _ hs h r hr⟩
  cases fmt <;>
    simp [bytesPerLine, sampleSizeOf, numComponentsOf] <;>
    first
    | omega
    | (split_ifs <;> omega)

/-- C10: with Mono1 color format the file backend inverts every sample of
the converted image before encoding, under all three compression schemes,
while the preview backend never inverts; hence the file backend's encoder
input is the bytewise complement of the preview's. -/
theorem c10_mono_inversion (s : PDFSettings) (convert : ColorFormat → List ℕ → List ℕ)
    (img : List ℕ) (hmono : s.colorFormat = ColorFormat.mono) :
    encSamples (podofoDrawImageSamples s convert img) =
      (convert ColorFormat.mono img).map invByte ∧
    previewDrawImageSamples s convert img = convert ColorFormat.mono img ∧
    encSamples (podofoDrawImageSamples s convert img) =
      (previewDrawImageSamples s convert img).map invByte := by
  cases hc : s.compression <;>
    simp [podofoDrawImageSamples, previewDrawImageSamples, encSamples, hmono, hc]

/-- C6: the file backend constructed by the export loop with scale factor
`72 / sourceDpi` on a page of height `bboxHeight * 72 / sourceDpi` points
emits, for every layout call `drawText(x, y, t)`, the text operator at
container coordinates `(x * scale, pageHeight - y * scale)`. -/
theorem c6_file_backend_text_coords (pm : PainterModel) (s : PDFSettings)
    (outputDpi : Int) (fontSize0 : ℚ) (p : PageInput) (x y : ℚ) (t : String)
    (hmem : PDFCall.drawText x y t ∈ pageCalls pm s outputDpi fontSize0 p) :
    PdfOp.opText (x * pageDocScale p)
        ((p.item.bbox.h : ℚ) * pageDocScale p - y * pageDocScale p) t ∈
      (renderPage pm s outputDpi fontSize0 p).ops := by
  have h := List.mem_map_of_mem
    (applyPoDoFo ⟨pageDocScale p, (p.item.bbox.h : ℚ) * pageDocScale p⟩) hmem
  simpa [renderPage, applyPoDoFo] using h

theorem exportPages_append (pm : PainterModel) (s : PDFSettings) (outputDpi : Int)
    (fontSize0 : ℚ) (xs ys : List PageInput) :
    exportPages pm s outputDpi fontSize0 (xs ++ ys) =
      ((exportPages pm s outputDpi fontSize0 xs).1 ++ (exportPages pm s outputDpi fontSize0 ys).1,
       (exportPages pm s outputDpi fontSize0 xs).2 ++ (exportPages pm s outputDpi fontSize0 ys).2) := by
  induction xs with
  | nil => simp [exportPages]
  | cons p ps ih =>
    simp only [List.cons_append, exportPages]
    split_ifs <;> simp [ih]

/-- C5: an enabled page whose source image cannot be resolved is skipped
and its title appended to the failure list, while all other pages are still
rendered in order; the non-empty failure list is reported once in batch;
the overall result equals the finalization outcome — per-page failures
alone never make it false, a close failure always does (and is reported
separately). -/
theorem c5_per_page_failures (pm : PainterModel) (s : PDFSettings) (outputDpi : Int)
    (fontSize0 : ℚ) (pre post : List PageInput) (bad : PageInput) (closeOk : Bool)
    (h1 : bad.enabled = true) (h2 : bad.sourceOk = false) :
    (exportPages pm s outputDpi fontSize0 (pre ++ bad :: post)).1 =
      (exportPages pm s outputDpi fontSize0 pre).1 ++
        (exportPages pm s outputDpi fontSize0 post).1 ∧
    (exportPages pm s outputDpi fontSize0 (pre ++ bad :: post)).2 =
      (exportPages pm s outputDpi fontSize0 pre).2 ++
        bad.title :: (exportPages pm s outputDpi fontSize0 post).2 ∧
    (runExport pm s outputDpi fontSize0 (pre ++ bad :: post) closeOk).batchReport =
      some ((exportPages pm s outputDpi fontSize0 (pre ++ bad :: post)).2) ∧
    (runExport pm s outputDpi fontSize0 (pre ++ bad :: post) closeOk).canBeOpened = closeOk ∧
    (runExport pm s outputDpi fontSize0 (pre ++ bad :: post) closeOk).closeReport = !closeOk := by
  have hb : exportPages pm s outputDpi fontSize0 (bad :: post) =
      ((exportPages pm s outputDpi fontSize0 post).1,
       bad.title :: (exportPages pm s outputDpi fontSize0 post).2) := by
    simp [exportPages, h1, h2]
  have hall := exportPages_append pm s outputDpi fontSize0 pre (bad :: post)
  rw [hb] at hall
  refine ⟨by rw [hall], by rw [hall], ?_, rfl, rfl⟩
  simp only [runExport, hall]
  simp

/-- C7 (amended): an enabled page whose source image resolves yields exactly
one output page, of size `(w * 72/dpi) × (h * 72/dpi)` points; a disabled
page contributes nothing to the export. -/
theorem c7_one_page_per_resolved_page (pm : PainterModel) (s : PDFSettings)
    (outputDpi : Int) (fontSize0 : ℚ) (p : PageInput) (pre post : List PageInput) :
    (p.enabled = true → p.sourceOk = true →
      (exportPages pm s outputDpi fontSize0 (pre ++ p :: post)).1 =
        (exportPages pm s outputDpi fontSize0 pre).1 ++
          renderPage pm s outputDpi fontSize0 p ::
            (exportPages pm s outputDpi fontSize0 post).1 ∧
      (renderPage pm s outputDpi fontSize0 p).width =
        (p.item.bbox.w : ℚ) * (72 / (p.resolution : ℚ)) ∧
      (renderPage pm s outputDpi fontSize0 p).height =
        (p.item.bbox.h : ℚ) * (72 / (p.resolution : ℚ))) ∧
    (p.enabled = false →
      exportPages pm s outputDpi fontSize0 (pre ++ p :: post) =
        exportPages pm s outputDpi fontSize0 (pre ++ post)) := by
  constructor
  · intro he hp2
    have hp : exportPages pm s outputDpi fontSize0 (p :: post) =
        (renderPage pm s outputDpi fontSize0 p ::
           (exportPages pm s outputDpi fontSize0 post).1,
         (exportPages pm s outputDpi fontSize0 post).2) := by
      simp [exportPages, he, hp2]
    have hall := exportPages_append pm s outputDpi fontSize0 pre (p :: post)
    rw [hp] at hall
    exact ⟨by rw [hall], rfl, rfl⟩
  · intro he
    have hp : exportPages pm s outputDpi fontSize0 (p :: post) =
        exportPages pm s outputDpi fontSize0 post := by
      simp [exportPages, he]
    have ha := exportPages_append pm s outputDpi fontSize0 pre (p :: post)
    have hb := exportPages_append pm s outputDpi fontSize0 pre post
    rw [hp] at ha
    rw [ha, hb]

theorem uniformWordStep_drawTextY (pm : PainterModel) (s : PDFSettings) (yb : ℚ)
    (w : HOCRItem) (c : WordCursor) :
    ∀ call ∈ (uniformWordStep pm s yb w c).2, ∀ y0, drawTextY call = some y0 →
      y0 = yb := by
  intro call hc y0 hy
  cases call with
  | setFontSize p => simp [drawTextY] at hy
  | drawImage b => simp [drawTextY] at hy
  | drawText x y t =>
    simp only [drawTextY] at hy
    simp only [uniformWordStep] at hc
    split_ifs at hc <;> simp_all

theorem uniformWordLoop_drawTextY (pm : PainterModel) (s : PDFSettings) (yb : ℚ) :
    ∀ (ws : List HOCRItem) (c : WordCursor),
      ∀ call ∈ (uniformWordLoop pm s yb ws c).2, ∀ y0, drawTextY call = some y0 →
        y0 = yb := by
  intro ws
  induction ws with
  | nil =>
    intro c call hc
    simp [uniformWordLoop] at hc
  | cons w ws ih =>
    intro c call hc y0 hy
    simp only [uniformWordLoop, List.mem_append] at hc
    rcases hc with hc | hc
    · exact uniformWordStep_drawTextY pm s yb w c call hc y0 hy
    · exact ih _ call hc y0 hy

theorem uniformLineLoop_segment_y (pm : PainterModel) (s : PDFSettings)
    (parLeft : Int) (baseline : Int) (yInc : ℚ) :
    ∀ (lines : List HOCRItem) (y fs : ℚ) (k : ℕ), k < lines.length →
      ∀ call ∈ (uniformLineLoop pm s parLeft baseline yInc lines y fs).2.getD k [],
        ∀ y0, drawTextY call = some y0 →
          y0 = y + (k : ℚ) * yInc + (baseline : ℚ) := by
  intro lines
  induction lines with
  | nil =>
    intro y fs k hk
    exact absurd hk (by simp)
  | cons l ls ih =>
    intro y fs k hk call hcall y0 hy
    cases k with
    | zero =>
      simp only [uniformLineLoop, List.getD_cons_zero] at hcall
      have h := uniformWordLoop_drawTextY pm s (y + (baseline : ℚ)) l.children
        ⟨parLeft, parLeft, fs⟩ call hcall y0 hy
      rw [h]
      push_cast
      ring
    | succ k =>
      simp only [uniformLineLoop, List.getD_cons_succ] at hcall
      have h := ih (y + yInc) _ k (by simpa using hk) call hcall y0 hy
      rw [h]
      push_cast
      ring

/-- C2: for a paragraph processed with uniform line spacing enabled, the
trace is the concatenation of per-line segments produced by the line loop
started at `top + yInc`, and every `drawText` of the k-th line's segment
carries the y coordinate `top + (k+1) * (height / lineCount) + baseline0`,
where `baseline0` is the first child line's baseline offset, applied
uniformly to every line. -/
theorem c2_uniform_line_spacing_baselines (pm : PainterModel) (s : PDFSettings)
    (imgScale fs : ℚ) (item : HOCRItem)
    (hc : item.itemClass = "ocr_par") (he : item.enabled = true)
    (hu : s.uniformizeLineSpacing = true)
    (k : ℕ) (hk : k < item.children.length) :
    (printChildren pm s imgScale item fs).2 =
      ((uniformLineLoop pm s item.bbox.x (firstChildBaseline item.children)
          ((item.bbox.h : ℚ) / (item.children.length : ℚ)) item.children
          ((item.bbox.top : ℚ) + (item.bbox.h : ℚ) / (item.children.length : ℚ))
          fs).2).flatten ∧
    ∀ call ∈ (uniformLineLoop pm s item.bbox.x (firstChildBaseline item.children)
          ((item.bbox.h : ℚ) / (item.children.length : ℚ)) item.children
          ((item.bbox.top : ℚ) + (item.bbox.h : ℚ) / (item.children.length : ℚ))
          fs).2.getD k [],
      ∀ y0, drawTextY call = some y0 →
        y0 = (item.bbox.top : ℚ) +
          ((k : ℚ) + 1) * ((item.bbox.h : ℚ) / (item.children.length : ℚ)) +
          (firstChildBaseline item.children : ℚ) := by
  cases item with
  | mk cls rect en bl txt fsz cs =>
    simp only [HOCRItem.itemClass] at hc
    simp only [HOCRItem.enabled] at he
    simp only [HOCRItem.children] at hk ⊢
    simp only [HOCRItem.bbox]
    subst hc he
    constructor
    · simp [printChildren, hu]
    · intro call hcall y0 hy
      have h := uniformLineLoop_segment_y pm s rect.x (firstChildBaseline cs)
        ((rect.h : ℚ) / (cs.length : ℚ)) cs
        ((rect.top : ℚ) + (rect.h : ℚ) / (cs.length : ℚ)) fs k hk call hcall y0 hy
      rw [h]
      ring

/-- A painter model with unit average character width and a constant text
width of 3 points, used for concrete evaluations. -/
def pmW : PainterModel := ⟨fun _ => 1, fun _ _ => 3⟩

/-- Settings: RGB/Zip, detected font sizes off, uniform line spacing OFF,
preserve-space threshold 4, replace mode. -/
def sPlain : PDFSettings := ⟨ColorFormat.rgb888, Compression.zip, 90, false, false, 4, false, 1⟩

/-- Settings: RGB/Zip, detected font sizes off, uniform line spacing ON,
preserve-space threshold 4, replace mode. -/
def sUniform : PDFSettings := ⟨ColorFormat.rgb888, Compression.zip, 90, false, true, 4, false, 1⟩

/-- A word with its enabled flag cleared. -/
def hiddenWord : HOCRItem := .mk "ocrx_word" ⟨30, 5, 20, 10⟩ false 0 "HIDDEN" 10 []

def lineWithHidden : HOCRItem := .mk "ocr_line" ⟨0, 0, 100, 20⟩ true (-3) "" 0 [hiddenWord]

def parWithHidden : HOCRItem := .mk "ocr_par" ⟨0, 0, 100, 20⟩ true 0 "" 0 [lineWithHidden]

def pageWithHidden : HOCRItem := .mk "ocr_page" ⟨0, 0, 200, 100⟩ true 0 "" 0 [parWithHidden]

/-- C1 (failing evaluation): with uniform line spacing disabled, the
`ocr_line` branch of `printChildren` iterates the line's words without any
enabled check, so a disabled word inside an enabled line is still drawn:
the full-page walk emits exactly one `drawText` — for the disabled word. -/
theorem c1_disabled_word_drawn :
    hiddenWord.enabled = false ∧
    (printChildren pmW sPlain 1 pageWithHidden 12).2 =
      [PDFCall.drawText 30 16 "HIDDEN"] := by
  refine ⟨rfl, ?_⟩
  norm_num +decide [printChildren, printChildrenList, lineWordLoop, pageWithHidden,
    parWithHidden, lineWithHidden, hiddenWord, sPlain, HOCRItem.children,
    HOCRItem.enabled, HOCRItem.itemClass, HOCRItem.text, HOCRItem.bbox,
    QRect.bottom]

def visWord : HOCRItem := .mk "ocrx_word" ⟨30, 5, 20, 10⟩ true 0 "Hello" 10 []

def visLine : HOCRItem := .mk "ocr_line" ⟨0, 0, 100, 20⟩ true (-3) "" 0 [visWord]

/-- An enabled hOCR page of 2550 × 3300 source pixels. -/
def visPage : HOCRItem := .mk "ocr_page" ⟨0, 0, 2550, 3300⟩ true 0 "" 0 [visLine]

def pageOne : PageInput := ⟨"Page 1", true, 300, true, visPage⟩

/-- An enabled page whose source image cannot be resolved. -/
def pageNoSource : PageInput := ⟨"Page 2", true, 300, false, visPage⟩

/-- C7 (counterexample): an enabled page whose source image cannot be
resolved creates no output page at all, refuting the claim that every
enabled page yields exactly one output page. -/
theorem c7_enabled_page_without_source_counterexample :
    pageNoSource.enabled = true ∧
    (exportPages pmW sPlain 300 12 [pageNoSource]).1.length = 0 := by
  exact ⟨rfl, by simp [exportPages, pageNoSource]⟩

/-- Witness for C2 at a concrete two-line paragraph. -/
def wordA : HOCRItem := .mk "ocrx_word" ⟨2, 100, 10, 8⟩ true 0 "alpha" 10 []

def wordB : HOCRItem := .mk "ocrx_word" ⟨2, 120, 10, 8⟩ true 0 "beta" 10 []

def lineA : HOCRItem := .mk "ocr_line" ⟨0, 100, 50, 20⟩ true 5 "" 0 [wordA]

def lineB : HOCRItem := .mk "ocr_line" ⟨0, 120, 50, 20⟩ true 7 "" 0 [wordB]

def parAB : HOCRItem := .mk "ocr_par" ⟨0, 100, 50, 40⟩ true 0 "" 0 [lineA, lineB]

theorem c2_uniform_line_spacing_baselines_witness :
    (145 : ℚ) = (parAB.bbox.top : ℚ) +
      (((1 : ℕ) : ℚ) + 1) * ((parAB.bbox.h : ℚ) / (parAB.children.length : ℚ)) +
      (firstChildBaseline parAB.children : ℚ) := by
  have h := (c2_uniform_line_spacing_baselines pmW sUniform 1 12 parAB rfl rfl rfl
    1 (by decide)).2
  refine h (PDFCall.drawText 0 145 "beta") ?_ 145 rfl
  norm_num +decide [uniformLineLoop, uniformWordLoop, uniformWordStep, parAB,
    lineA, lineB, wordA, wordB, sUniform, pmW, firstChildBaseline,
    HOCRItem.children, HOCRItem.bbox, HOCRItem.enabled, HOCRItem.text,
    HOCRItem.fontSize, HOCRItem.baseLine, QRect.top, QRect.right]

theorem c3_gap_heuristic_strict_witness :
    (uniformWordStep pmW sPlain 16 visWord ⟨0, 0, 12⟩).2.filterMap drawTextX =
      [(30 : ℚ)] := by
  have h := (c3_gap_heuristic_strict pmW sPlain 16 visWord ⟨0, 0, 12⟩ rfl).1
  norm_num [pmW, sPlain, visWord, HOCRItem.bbox, HOCRItem.fontSize] at h
  exact h

theorem c4_disabled_word_frame_witness :
    uniformWordStep pmW sUniform 16 hiddenWord ⟨0, 0, 12⟩ = (⟨0, 0, 12⟩, []) ∧
    uniformWordLoop pmW sUniform 16 [hiddenWord] ⟨0, 0, 12⟩ =
      uniformWordLoop pmW sUniform 16 [] ⟨0, 0, 12⟩ :=
  (c4_disabled_word_frame pmW sUniform 16 hiddenWord ⟨0, 0, 12⟩ []).1 rfl

theorem c5_per_page_failures_witness :
    (runExport pmW sPlain 300 12 ([pageOne] ++ pageNoSource :: []) true).canBeOpened
        = true ∧
    (runExport pmW sPlain 300 12 ([pageOne] ++ pageNoSource :: []) true).closeReport
        = !true :=
  ⟨(c5_per_page_failures pmW sPlain 300 12 [pageOne] [] pageNoSource true rfl rfl).2.2.2.1,
   (c5_per_page_failures pmW sPlain 300 12 [pageOne] [] pageNoSource true rfl rfl).2.2.2.2⟩

theorem c6_file_backend_text_coords_witness :
    PdfOp.opText ((30 : ℚ) * pageDocScale pageOne)
        ((pageOne.item.bbox.h : ℚ) * pageDocScale pageOne - (16 : ℚ) * pageDocScale pageOne)
        "Hello" ∈ (renderPage pmW sPlain 300 12 pageOne).ops :=
  c6_file_backend_text_coords pmW sPlain 300 12 pageOne 30 16 "Hello" (by
    norm_num +decide [pageCalls, printChildren, printChildrenList, lineWordLoop,
      pageOne, visPage, visLine, visWord, sPlain, HOCRItem.children,
      HOCRItem.enabled, HOCRItem.itemClass, HOCRItem.text, HOCRItem.bbox,
      QRect.bottom])

theorem c7_one_page_per_resolved_page_witness :
    ((exportPages pmW sPlain 300 12 ([] ++ pageOne :: [])).1 =
      (exportPages pmW sPlain 300 12 []).1 ++
        renderPage pmW sPlain 300 12 pageOne ::
          (exportPages pmW sPlain 300 12 []).1 ∧
     (renderPage pmW sPlain 300 12 pageOne).width =
       (pageOne.item.bbox.w : ℚ) * (72 / (pageOne.resolution : ℚ)) ∧
     (renderPage pmW sPlain 300 12 pageOne).height =
       (pageOne.item.bbox.h : ℚ) * (72 / (pageOne.resolution : ℚ))) ∧
    (renderPage pmW sPlain 300 12 pageOne).width = 612 ∧
    (renderPage pmW sPlain 300 12 pageOne).height = 792 := by
  refine ⟨(c7_one_page_per_resolved_page pmW sPlain 300 12 pageOne [] []).1 rfl rfl,
    ?_, ?_⟩
  · norm_num [renderPage, pageDocScale, pageOne, visPage, HOCRItem.bbox]
  · norm_num [renderPage, pageDocScale, pageOne, visPage, HOCRItem.bbox]

def emptyPar : HOCRItem := .mk "ocr_par" ⟨0, 0, 50, 30⟩ true 0 "" 0 []

theorem c8_empty_paragraph_noop_witness :
    printChildren pmW sUniform 1 emptyPar 12 = (12, []) :=
  c8_empty_paragraph_noop pmW sUniform 1 12 emptyPar rfl rfl rfl rfl

theorem c9_zip_row_packing_witness :
    bytesPerLine ColorFormat.mono 10 =
      (10 * sampleSizeOf ColorFormat.mono * numComponentsOf ColorFormat.mono + 7) / 8 ∧
    (packBuffer (bytesPerLine ColorFormat.mono 10) (fun _ => [1, 2, 3, 4]) 2).length =
      bytesPerLine ColorFormat.mono 10 * 2 :=
  ⟨(c9_zip_row_packing ColorFormat.mono 10 2 (fun _ => [1, 2, 3, 4])
      (fun _ => show bytesPerLine ColorFormat.mono 10 ≤ 4 by decide)).1,
   (c9_zip_row_packing ColorFormat.mono 10 2 (fun _ => [1, 2, 3, 4])
      (fun _ => show bytesPerLine ColorFormat.mono 10 ≤ 4 by decide)).2.1⟩

/-- Mono settings with the Fax4 compression path selected. -/
def sMonoFax : PDFSettings := ⟨ColorFormat.mono, Compression.fax4, 90, false, false, 4, false, 1⟩

/-- The identity color conversion, as a concrete `convert` instance. -/
def idConvert : ColorFormat → List ℕ → List ℕ := fun _ l => l

theorem c10_mono_inversion_witness :
    encSamples (podofoDrawImageSamples sMonoFax idConvert [0, 255, 7]) =
      (idConvert ColorFormat.mono [0, 255, 7]).map invByte ∧
    encSamples (podofoDrawImageSamples sMonoFax idConvert [0, 255, 7]) = [255, 0, 248] :=
  ⟨(c10_mono_inversion sMonoFax idConvert [0, 255, 7] rfl).1,
   by decide⟩
